import Mathlib

/-!
Verification of the syncy repository's room/session coordination server
(`server/index.ts`, with the embedded Vercel server variant in
`src/types/streaming.ts`) and its peer-to-peer chunked transfer protocol
(`src/lib/videoChunker.ts` / `src/lib/p2pStreaming.ts`).

The TypeScript sources are shallowly embedded as executable Lean
definitions: JS `Map`s become insertion-ordered association lists, socket
emissions become an explicit `Emission` action list returned by each
handler, `Date.now()` becomes a logical clock, and `uuidv4()` becomes a
fresh-id counter.
-/

namespace Syncy

/-- Source bytes, one `Nat` per byte (0–255 in practice; the chunking and
transfer logic never inspects byte values). -/
abbrev Bytes := List Nat

/-- Model of the SHA-256 digest used by `VideoChunker.calculateChecksum`
and `P2PStreamingManager.calculateChecksum`: a deterministic executable
digest of the payload bytes.  The source only ever *compares* digests for
equality (content verification), so the particular digest function is
irrelevant to every claim; determinism is all that is used. -/
def sha256Model (data : Bytes) : Nat :=
  data.foldl (fun h b => (h * 31 + b) % (2 ^ 64)) 7

/-- `VideoChunk` from `src/types/streaming.ts`: sequence index, payload,
timestamp, last-chunk flag, byte length, checksum (digest modeled as a
`Nat` instead of a hex string; only equality of checksums is ever used). -/
structure VideoChunk where
  index : Nat
  data : Bytes
  timestamp : Nat
  isLast : Bool
  size : Nat
  checksum : Nat
deriving DecidableEq, Inhabited

/-- `Math.ceil(this.file.size / this.chunkSize)` from
`VideoChunker.createChunks` (exact for the integer sizes involved). -/
def numChunks (len chunkSize : Nat) : Nat := (len + chunkSize - 1) / chunkSize

/-- One iteration of the `createChunks` loop: chunk `i` carries the bytes
`file.slice(i*chunkSize, min((i+1)*chunkSize, len))`, its byte length,
its digest, and `isLast = (i === totalChunks - 1)`.  The source stamps
`timestamp: Date.now()`; the timestamp is never consumed, modeled as 0. -/
def chunkAt (bytes : Bytes) (chunkSize i total : Nat) : VideoChunk :=
  let data := (bytes.drop (i * chunkSize)).take chunkSize
  { index := i
    data := data
    timestamp := 0
    isLast := i == total - 1
    size := data.length
    checksum := sha256Model data }

/-- `VideoChunker.createChunks` (src/lib/videoChunker.ts, lines 537–576)
at a fixed chunk size: the contiguous partition of the source into
`ceil(len/chunkSize)` indexed, checksummed chunks. -/
def createChunks (bytes : Bytes) (chunkSize : Nat) : List VideoChunk :=
  (List.range (numChunks bytes.length chunkSize)).map
    (fun i => chunkAt bytes chunkSize i (numChunks bytes.length chunkSize))

/-- The quality tiers of `VideoChunker.qualityLevels` (name, chunk size). -/
def qualityLevels : List (String × Nat) :=
  [("low", 32 * 1024), ("medium", 64 * 1024), ("high", 128 * 1024)]

/-- `createChunks(quality)`: the chunk size of the matching quality level,
defaulting to `qualityLevels[1]` (medium, 64 KiB) when no tier matches. -/
def createChunksQuality (bytes : Bytes) (quality : String) : List VideoChunk :=
  createChunks bytes
    (((qualityLevels.find? (fun q => q.1 == quality)).getD ("medium", 64 * 1024)).2)

/-! ### JS `Map` as an insertion-ordered association list -/

/-- JS `Map.get`: the value at the (unique) matching key. -/
def mapGet [BEq K] (m : List (K × V)) (k : K) : Option V :=
  (m.find? (fun p => p.1 == k)).map Prod.snd

/-- JS `Map.set`: update the existing entry in place, else append
(JS `Map` preserves insertion order and keeps keys unique). -/
def mapSet [BEq K] (m : List (K × V)) (k : K) (v : V) : List (K × V) :=
  if m.any (fun p => p.1 == k) then m.map (fun p => if p.1 == k then (k, v) else p)
  else m ++ [(k, v)]

/-- JS `Map.delete`: remove the (unique) matching entry, preserving the
order of the remaining entries. -/
def mapDelete [BEq K] (m : List (K × V)) (k : K) : List (K × V) :=
  m.eraseP (fun p => p.1 == k)

/-! ### Chunk consumer (`P2PStreamingManager`, src/lib/p2pStreaming.ts) -/

/-- `ChunkBuffer` (src/types/streaming.ts): the consumer's receive
buffer; `chunks` models the JS `Map<number, VideoChunk>`. -/
structure ChunkBuffer where
  chunks : List (Nat × VideoChunk)
  maxSize : Nat
  currentSize : Nat
  missingChunks : List Nat
deriving DecidableEq, Inhabited

/-- The fields of `StreamingState` read or written by chunk handling
(`isStreaming`, `isHost`, quality, bandwidth and participant fields are
never touched by `handleReceivedChunk` and are omitted). -/
structure StreamingStateCore where
  totalChunks : Nat
  receivedChunks : Nat
  bufferedChunks : Nat
deriving DecidableEq, Inhabited

/-- `StreamingConfig` (src/types/streaming.ts) without the quality-level
list (already modeled by `qualityLevels`). -/
structure StreamingConfig where
  chunkSize : Nat
  maxChunksInFlight : Nat
  retryAttempts : Nat
  timeoutMs : Nat
deriving DecidableEq, Inhabited

/-- The constructor values of `this.config` in `P2PStreamingManager`.
`retryAttempts` is assigned here and never read anywhere in the source. -/
def config : StreamingConfig :=
  { chunkSize := 64 * 1024, maxChunksInFlight := 10, retryAttempts := 3,
    timeoutMs := 5000 }

/-- Consumer-side state of a `P2PStreamingManager`. -/
structure P2PState where
  chunkBuffer : ChunkBuffer
  streamingState : StreamingStateCore
deriving DecidableEq, Inhabited

/-- Everything `handleReceivedChunk` can emit or invoke: the
`chunk-received` and `stream-complete` events, and the call to
`requestChunk` — which, per the source (src/lib/p2pStreaming.ts lines
298–301), only logs `Requesting chunk ... from ...` to the console and
sends nothing (its body is the comment `This will be implemented when we
have the room context` plus a `console.log`).  No other action — in
particular no error event and no retry bookkeeping — exists on this code
path. -/
inductive P2PAction where
  | chunkReceived (chunkIndex totalReceived totalChunks : Nat)
  | streamComplete (totalChunks : Nat)
  | requestChunkLog (chunkIndex : Nat) (participantId : String)
deriving DecidableEq

/-- `P2PStreamingManager.handleReceivedChunk` (src/lib/p2pStreaming.ts,
lines 250–296): recompute the digest of the received payload; on mismatch
call `requestChunk` and change nothing; on match store the chunk in the
buffer map, increment `currentSize` and `receivedChunks`, set
`bufferedChunks` to the map size, drop the index from `missingChunks`,
emit `chunk-received`, and emit `stream-complete` as soon as
`receivedChunks >= totalChunks`. -/
def handleReceivedChunk (st : P2PState) (chunk : VideoChunk)
    (fromParticipantId : String) : P2PState × List P2PAction :=
  let calculatedChecksum := sha256Model chunk.data
  if calculatedChecksum ≠ chunk.checksum then
    (st, [.requestChunkLog chunk.index fromParticipantId])
  else
    let chunks' := mapSet st.chunkBuffer.chunks chunk.index chunk
    let received' := st.streamingState.receivedChunks + 1
    let st' : P2PState :=
      { chunkBuffer :=
          { chunks := chunks'
            maxSize := st.chunkBuffer.maxSize
            currentSize := st.chunkBuffer.currentSize + 1
            missingChunks := st.chunkBuffer.missingChunks.erase chunk.index }
        streamingState :=
          { totalChunks := st.streamingState.totalChunks
            receivedChunks := received'
            bufferedChunks := chunks'.length } }
    (st',
      [.chunkReceived chunk.index received' st.streamingState.totalChunks] ++
        (if st.streamingState.totalChunks ≤ received' then
          [.streamComplete st.streamingState.totalChunks] else []))

/-- A participant's consumer state right after construction plus the
`STREAM_START` metadata handler setting `totalChunks` (the constructor
zeroes all counters and sets `maxSize` to 100). -/
def initConsumer (totalChunks : Nat) : P2PState :=
  { chunkBuffer :=
      { chunks := [], maxSize := 100, currentSize := 0, missingChunks := [] }
    streamingState :=
      { totalChunks := totalChunks, receivedChunks := 0, bufferedChunks := 0 } }

/-- Fold `handleReceivedChunk` over a sequence of deliveries
(chunk, sending peer), concatenating the emitted actions — the chunk
delivery channel guarantees no order, so any list is a possible trace. -/
def runDeliveries : P2PState → List (VideoChunk × String) → P2PState × List P2PAction
  | st, [] => (st, [])
  | st, d :: ds =>
    let r1 := handleReceivedChunk st d.1 d.2
    let r2 := runDeliveries r1.1 ds
    (r2.1, r1.2 ++ r2.2)

/-- "Complete" exactly as the code detects it: purely by count,
`receivedChunks >= totalChunks` (src/lib/p2pStreaming.ts line 287). -/
def isComplete (st : P2PState) : Bool :=
  st.streamingState.totalChunks ≤ st.streamingState.receivedChunks

def isStreamCompleteAct : P2PAction → Bool
  | .streamComplete _ => true
  | _ => false

/-- A delivery whose declared checksum matches the digest of its payload
(i.e. an uncorrupted chunk). -/
def validDelivery (d : VideoChunk × String) : Prop :=
  d.1.checksum = sha256Model d.1.data

instance (d : VideoChunk × String) : Decidable (validDelivery d) :=
  inferInstanceAs (Decidable (d.1.checksum = sha256Model d.1.data))

/-- A well-formed chunk with index 0 and payload `[5]`. -/
def dupChunk : VideoChunk :=
  { index := 0, data := [5], timestamp := 0, isLast := false, size := 1,
    checksum := sha256Model [5] }

/-- A chunk whose declared checksum does not match the digest of its
payload (a chunk corrupted in transit). -/
def corruptChunk : VideoChunk :=
  { index := 0, data := [5], timestamp := 0, isLast := false, size := 1,
    checksum := sha256Model [5] + 1 }

/-! ### Room/session coordination server (server/index.ts)

Socket ids are modeled as `Nat` (socket.io connection ids), member ids as
`Nat` drawn from a fresh counter (`uuidv4()`), `Date.now()` as the logical
clock `now`, and the JS `Map`s `rooms` and `userSockets` as insertion-
ordered association lists. -/

/-- `User` (server/index.ts lines 66–72). -/
structure User where
  id : Nat
  socketId : Nat
  name : String
  isHost : Bool
  joinedAt : Nat
deriving DecidableEq, Inhabited

/-- `Room` (server/index.ts lines 57–64).  `users` models the JS
`Map<string, User>` keyed by `User.id` in insertion order.  `host` is the
member id recorded at room creation (`''` modeled as `none`). -/
structure Room where
  id : String
  name : String
  host : Option Nat
  users : List User
  createdAt : Nat
  lastActivity : Nat
deriving DecidableEq, Inhabited

/-- A socket.io room name.  socket.io keys rooms by strings drawn from
three disjoint namespaces in this program: each socket's automatic
personal room (its connection id), the client-supplied room codes passed
to `socket.join(roomId)`, and — only ever as an emission *target*, in
`socket.to(room.host)` — member uuids.  uuids are generated by `uuidv4()`
and never collide with socket.io connection ids or with previously chosen
room codes, which the three constructors make explicit. -/
inductive Target where
  | sock (sid : Nat)
  | str (roomName : String)
  | user (uid : Nat)
deriving DecidableEq

/-- The socket.io events the modeled handlers emit, with the payload
fields the claims are about (informational payload copies such as the
full member-list snapshot in `room-joined` are reduced to the fields the
spec claims mention). -/
inductive EventMsg where
  | errorMsg (message : String)
  | roomJoined (roomId : String) (userId : Nat) (isHost : Bool)
  | userJoined (userId : Nat)
  | userReconnected (userId : Nat)
  | videoEventReceived (kind : String) (time volume speed : Option Nat)
      (userId timestamp : Nat)
  | hostChanged (newHostId : Nat)
  | userLeft (userId : Nat)
  | joinStreamRequestFwd (roomId : String) (participantId : Nat)
      (participantName : String) (timestamp : Nat)
deriving DecidableEq

/-- One socket.io send: `socket.emit` (to the handling connection only),
`socket.to(target).emit` (to every socket in `target` except the sender),
or `io.to(target).emit` (to every socket in `target`). -/
inductive Emission where
  | emitTo (sid : Nat) (ev : EventMsg)
  | broadcast (sender : Nat) (target : Target) (ev : EventMsg)
  | broadcastAll (target : Target) (ev : EventMsg)
deriving DecidableEq

/-- Whole-server state: the `rooms` and `userSockets` maps, each socket's
set of joined socket.io rooms (`socket.join`), the `uuidv4()` fresh-id
counter, and the `Date.now()` clock. -/
structure ServerState where
  rooms : List (String × Room)
  userSockets : List (Nat × Nat)
  joined : List (Nat × List String)
  nextUserId : Nat
  now : Nat
deriving DecidableEq, Inhabited

/-- The server's state at process start: no rooms, no bindings. -/
def initialServerState : ServerState :=
  { rooms := [], userSockets := [], joined := [], nextUserId := 0, now := 0 }

/-- `socket.join(roomId)`: add `roomId` to the socket's joined rooms. -/
def sioJoin (joined : List (Nat × List String)) (sid : Nat) (roomId : String) :
    List (Nat × List String) :=
  let cur := (mapGet joined sid).getD []
  mapSet joined sid (if cur.contains roomId then cur else cur ++ [roomId])

/-- Whether socket `s` is inside the socket.io room `t`: every socket is
in its own personal room, plus every room code it has `join`ed.  No
socket is ever in a room named by a member uuid. -/
def inSioRoom (st : ServerState) (s : Nat) : Target → Bool
  | .sock x => s == x
  | .str r => ((mapGet st.joined s).getD []).contains r
  | .user _ => false

/-- socket.io delivery of `socket.to(t).emit(...)` sent by `sender`:
socket `s` receives the event iff it is in room `t` and is not the
sender. -/
def isRecipient (st : ServerState) (sender : Nat) (t : Target) (s : Nat) : Bool :=
  !(s == sender) && inSioRoom st s t

/-- The fresh member built by the `join-room` handler (server/index.ts
lines 168–176): fresh uuid, the joining connection id, the submitted
display name, host iff the room was empty, joined at the current time. -/
def newUser (st : ServerState) (sid : Nat) (userName : String) (room : Room) : User :=
  { id := st.nextUserId
    socketId := sid
    name := userName
    isHost := room.users.isEmpty
    joinedAt := st.now }

/-- The non-reconnection tail of the `join-room` handler (server/index.ts
lines 162–213), entered with the (possibly freshly created) room in hand:
reject with `Room is full` when the room already holds 10 members,
otherwise create the member, record it as host if it is the first one,
append it to the room, bind the connection, join the socket.io room, and
emit `room-joined` to the joiner and `user-joined` to the others. -/
def joinExisting (st : ServerState) (sid : Nat) (roomId userName : String)
    (room : Room) : ServerState × List Emission :=
  if 10 ≤ room.users.length then
    (st, [.emitTo sid (.errorMsg "Room is full")])
  else
    let user := newUser st sid userName room
    let room' : Room :=
      { room with
        host := if room.users.isEmpty then some st.nextUserId else room.host
        users := room.users ++ [user]
        lastActivity := st.now }
    ({ st with
        rooms := mapSet st.rooms roomId room'
        userSockets := mapSet st.userSockets sid st.nextUserId
        joined := sioJoin st.joined sid roomId
        nextUserId := st.nextUserId + 1
        now := st.now + 1 },
      [.emitTo sid (.roomJoined roomId st.nextUserId user.isHost),
        .broadcast sid (.str roomId) (.userJoined st.nextUserId)])

/-- A fresh room as created on first join to an unknown code
(server/index.ts lines 148–160). -/
def freshRoom (roomId : String) (now : Nat) : Room :=
  { id := roomId
    name := "Room " ++ roomId
    host := none
    users := []
    createdAt := now
    lastActivity := now }

/-- The `join-room` handler (server/index.ts lines 95–218).  Missing
room code or display name (`''` is falsy) is rejected; a connection id
already bound to a member of the named room is a reconnection (rebind the
member's socket id in place, create nothing); otherwise the room is
created on demand and `joinExisting` runs. -/
def joinRoom (st : ServerState) (sid : Nat) (roomId userName : String) :
    ServerState × List Emission :=
  if roomId = "" ∨ userName = "" then
    (st, [.emitTo sid (.errorMsg "Room ID and user name are required")])
  else
    match mapGet st.rooms roomId, mapGet st.userSockets sid with
    | some room, some uid =>
      match room.users.find? (fun u => u.id == uid) with
      | some existingUser =>
        let room' : Room :=
          { room with
            users := room.users.map
              (fun u => if u.id == uid then { u with socketId := sid } else u)
            lastActivity := st.now }
        ({ st with
            rooms := mapSet st.rooms roomId room'
            userSockets := mapSet st.userSockets sid uid
            joined := sioJoin st.joined sid roomId
            now := st.now + 1 },
          [.emitTo sid (.roomJoined roomId uid existingUser.isHost),
            .broadcast sid (.str roomId) (.userReconnected uid)])
      | none => joinExisting st sid roomId userName room
    | some room, none => joinExisting st sid roomId userName room
    | none, _ =>
      let room := freshRoom roomId st.now
      joinExisting { st with rooms := mapSet st.rooms roomId room }
        sid roomId userName room

/-- The payload of a `video-event` submission (server/index.ts lines
221–227).  The numeric payloads are carried opaquely (never computed
with), so JS numbers are modeled as `Option Nat`. -/
structure VideoEventData where
  roomId : String
  type : String
  time : Option Nat
  volume : Option Nat
  speed : Option Nat
deriving DecidableEq, Inhabited

/-- The `video-event` handler of the main server (server/index.ts lines
221–268): any recognized member of the room — host or not — gets its
event broadcast to the other sockets of the room, stamped with the sender
id and server timestamp; there is no host check in this variant. -/
def videoEventHandler (st : ServerState) (sid : Nat) (d : VideoEventData) :
    ServerState × List Emission :=
  match mapGet st.rooms d.roomId with
  | none => (st, [.emitTo sid (.errorMsg "Room not found")])
  | some room =>
    match mapGet st.userSockets sid with
    | none => (st, [.emitTo sid (.errorMsg "User session not found")])
    | some uid =>
      if room.users.any (fun u => u.id == uid) then
        ({ st with
            rooms := mapSet st.rooms d.roomId { room with lastActivity := st.now }
            now := st.now + 1 },
          [.broadcast sid (.str d.roomId)
            (.videoEventReceived d.type d.time d.volume d.speed uid st.now)])
      else (st, [.emitTo sid (.errorMsg "User not in room")])

/-- The `video-event` handler of the embedded Vercel server variant
(src/types/streaming.ts lines 240–289): same checks in a different order,
plus the strict host-only rule `if (!user.isHost)` rejecting with
`Only host can control video`; it mutates no state. -/
def videoEventHandlerVercel (st : ServerState) (sid : Nat) (d : VideoEventData) :
    ServerState × List Emission :=
  match mapGet st.userSockets sid with
  | none => (st, [.emitTo sid (.errorMsg "User session not found")])
  | some uid =>
    match mapGet st.rooms d.roomId with
    | none => (st, [.emitTo sid (.errorMsg "Room not found")])
    | some room =>
      match room.users.find? (fun u => u.id == uid) with
      | none => (st, [.emitTo sid (.errorMsg "User not in room")])
      | some user =>
        if user.isHost then
          (st,
            [.broadcast sid (.str d.roomId)
              (.videoEventReceived d.type d.time d.volume d.speed uid st.now)])
        else (st, [.emitTo sid (.errorMsg "Only host can control video")])

/-- The `join-stream-request` handler (server/index.ts lines 355–392):
after validating room and membership, forwards the request with the
requester's socket id and name via `socket.to(room.host)` — the *target*
is the stored host member uuid (or the initial `''`), not a socket id. -/
def joinStreamRequestHandler (st : ServerState) (sid : Nat) (roomId : String) :
    ServerState × List Emission :=
  match mapGet st.rooms roomId with
  | none => (st, [.emitTo sid (.errorMsg "Room not found")])
  | some room =>
    match mapGet st.userSockets sid with
    | none => (st, [.emitTo sid (.errorMsg "User session not found")])
    | some uid =>
      match room.users.find? (fun u => u.id == uid) with
      | none => (st, [.emitTo sid (.errorMsg "User not in room")])
      | some user =>
        (st,
          [.broadcast sid
            (match room.host with
              | some h => Target.user h
              | none => Target.str "")
            (.joinStreamRequestFwd roomId sid user.name st.now)])

/-- The room-scan loop of the `disconnect` handler (server/index.ts lines
517–552) for the disconnected member id `uid` on socket `sid`: the first
room holding the member removes it; if the removed member was host and
members remain, the first remaining member (JS `Map` insertion order =
earliest joined) gets the host flag and `host-changed` is broadcast
room-wide; `user-left` goes to the others; an emptied room is destroyed.
The loop `break`s after the first match.  Note that `room.host` is *not*
rewritten on promotion. -/
def disconnectRooms (uid sid now : Nat) :
    List (String × Room) → List (String × Room) × List Emission
  | [] => ([], [])
  | (rid, room) :: rest =>
    match room.users.find? (fun u => u.id == uid) with
    | some user =>
      let users1 := room.users.eraseP (fun u => u.id == uid)
      let promoted :=
        if user.isHost then
          match users1 with
          | [] => ([], [])
          | h :: t =>
            (({ h with isHost := true } :: t : List User),
              [Emission.broadcastAll (.str rid) (.hostChanged h.id)])
        else (users1, [])
      let users2 := promoted.1
      let ems := promoted.2 ++ [Emission.broadcast sid (.str rid) (.userLeft uid)]
      if users2.isEmpty then (rest, ems)
      else (((rid, { room with users := users2, lastActivity := now }) :: rest), ems)
    | none =>
      let r := disconnectRooms uid sid now rest
      ((rid, room) :: r.1, r.2)

/-- The `disconnect` handler (server/index.ts lines 507–556).  The
`userSockets` binding is deleted only when a room actually held the
member (the delete sits inside the loop body).  socket.io itself removes
the disconnected socket from all its rooms, modeled by dropping its
`joined` entry. -/
def disconnectHandler (st : ServerState) (sid : Nat) : ServerState × List Emission :=
  match mapGet st.userSockets sid with
  | none => ({ st with joined := mapDelete st.joined sid }, [])
  | some uid =>
    let r := disconnectRooms uid sid st.now st.rooms
    let found := st.rooms.any (fun p => p.2.users.any (fun u => u.id == uid))
    ({ st with
        rooms := r.1
        userSockets := if found then mapDelete st.userSockets sid else st.userSockets
        joined := mapDelete st.joined sid
        now := st.now + 1 }, r.2)

/-- Reachable server states under the membership-mutating operations the
claims quantify over: any sequence of `join-room` submissions and socket
disconnects starting from the fresh server. -/
inductive Reachable : ServerState → Prop where
  | init : Reachable initialServerState
  | join (st : ServerState) (sid : Nat) (roomId userName : String) :
      Reachable st → Reachable (joinRoom st sid roomId userName).1
  | disc (st : ServerState) (sid : Nat) :
      Reachable st → Reachable (disconnectHandler st sid).1

/-- `users.map (fun u => if u.id == uid then {u with socketId := sid} else u)`:
the reconnection rebinding of a member's connection id (server/index.ts
line 115). -/
def rebindUsers (users : List User) (uid sid : Nat) : List User :=
  users.map (fun u => if u.id == uid then { u with socketId := sid } else u)

/-- Exactly one member of the list carries the host flag, and it is the
earliest-joined one: the claim predicate of the host invariant. -/
def hostOk (users : List User) : Prop :=
  users.countP (fun u => u.isHost) = 1
  ∧ ∀ u ∈ users, u.isHost = true → ∀ v ∈ users, v ≠ u → u.joinedAt < v.joinedAt

/-- The earliest-joined (first-inserted) member carries the host flag and
nobody else does. -/
def headHost : List User → Prop
  | [] => True
  | u :: rest => u.isHost = true ∧ ∀ v ∈ rest, v.isHost = false

/-- Per-room strengthened invariant: the head of the (insertion-ordered)
member list is the unique host, joins are strictly ordered in time, and
all member data is bounded by the server's clock and id counter. -/
def roomOk (nextId now : Nat) (room : Room) : Prop :=
  headHost room.users
  ∧ room.users.Pairwise (fun a b => a.joinedAt < b.joinedAt)
  ∧ (∀ u ∈ room.users, u.joinedAt < now)
  ∧ (∀ u ∈ room.users, u.id < nextId)

/-- Server-wide invariant: every room satisfies `roomOk`. -/
def serverInv (st : ServerState) : Prop :=
  ∀ p ∈ st.rooms, roomOk st.nextUserId st.now p.2

/-! ### Concrete scenario states (used by negative results and witnesses) -/

/-- Alice joins room `R` on socket 1. -/
def stA : ServerState := (joinRoom initialServerState 1 "R" "Alice").1

/-- ... then Bob joins on socket 2. -/
def stB : ServerState := (joinRoom stA 2 "R" "Bob").1

/-- ... then Carol joins on socket 3. -/
def stC : ServerState := (joinRoom stB 3 "R" "Carol").1

/-- ... then Alice (the host) disconnects: Bob is promoted. -/
def stD : ServerState := (disconnectHandler stC 1).1

/-- The room `R` as stored after Alice and Bob joined. -/
def roomB : Room := (mapGet stB.rooms "R").getD default

/-- Bob's member record in `roomB` (member id 1, socket 2, not host). -/
def bobUser : User := (roomB.users.find? (fun u => u.id == 1)).getD default

/-- The room `R` as stored after Alice disconnected (Bob promoted). -/
def roomD : Room := (mapGet stD.rooms "R").getD default

/-- A room `F` filled to the 10-member cap by ten distinct sockets. -/
def st10 : ServerState :=
  (List.range 10).foldl (fun s i => (joinRoom s (i + 1) "F" "Guest").1)
    initialServerState

/-- The full room `F`. -/
def roomF : Room := (mapGet st10.rooms "F").getD default

/-- The room `R` as stored after only Alice joined. -/
def roomA : Room := (mapGet stA.rooms "R").getD default

/-- A second well-formed chunk, with index 1 and payload `[9]`. -/
def dupChunk2 : VideoChunk :=
  { index := 1, data := [9], timestamp := 0, isLast := true, size := 1,
    checksum := sha256Model [9] }

/-- A reverse-order delivery trace with a duplicate interleaved: index 1
first, then index 0 twice. -/
def reverseDupDeliveries : List (VideoChunk × String) :=
  [(dupChunk2, "p"), (dupChunk, "p"), (dupChunk, "p")]

/-- The 10 000 000-byte source of the end-to-end scenario. -/
def tenMBSource : Bytes := List.replicate 10000000 0

/-- The 153 valid deliveries (one per index, in order) used as the
witness consumer trace for the end-to-end scenario. -/
def tenMBDeliveries : List (VideoChunk × String) :=
  (List.range 153).map (fun i =>
    ({ index := i, data := [], timestamp := 0, isLast := i == 152, size := 0,
        checksum := sha256Model [] }, "host"))


end Syncy

namespace Syncy

/- ### Chunker lemmas -/

theorem numChunks_zero (cs : Nat) : numChunks 0 cs = 0 := by
  unfold numChunks
  cases cs with
  | zero => rfl
  | succ k => exact Nat.div_eq_of_lt (by omega)

theorem numChunks_pos_eq (len cs : Nat) (hl : 1 ≤ len) (hc : 1 ≤ cs) :
    numChunks len cs = (len - 1) / cs + 1 := by
  unfold numChunks
  rw [Nat.div_eq_sub_div hc (by omega)]
  have h1 : len + cs - 1 - cs = len - 1 := by omega
  rw [h1]

theorem numChunks_sub (len cs : Nat) (hl : 1 ≤ len) (hc : 1 ≤ cs) :
    numChunks (len - cs) cs = (len - 1) / cs := by
  unfold numChunks
  rcases le_or_lt len cs with h | h
  · have h1 : len - cs = 0 := by omega
    rw [h1]
    have : (0 + cs - 1) / cs = 0 := Nat.div_eq_of_lt (by omega)
    rw [this]
    exact (Nat.div_eq_of_lt (by omega)).symm
  · congr 1
    omega

theorem join_chunkData (cs : Nat) (hc : 1 ≤ cs) (bytes : Bytes) :
    ((List.range (numChunks bytes.length cs)).map
      (fun i => (bytes.drop (i * cs)).take cs)).flatten = bytes := by
  generalize hn : bytes.length = n
  induction n using Nat.strong_induction_on generalizing bytes with
  | _ n ih =>
    cases bytes with
    | nil =>
      subst hn
      simp [numChunks_zero]
    | cons b bs =>
      have hl : 1 ≤ n := by
        simp only [List.length_cons] at hn
        omega
      have hrec : numChunks n cs = numChunks (n - cs) cs + 1 := by
        rw [numChunks_pos_eq n cs hl hc, numChunks_sub n cs hl hc]
      rw [hrec, List.range_succ_eq_map, List.map_cons, List.map_map, List.flatten]
      have hdrop : ∀ i : Nat, ((b :: bs).drop (Nat.succ i * cs)).take cs
          = (((b :: bs).drop cs).drop (i * cs)).take cs := by
        intro i
        simp [List.drop_drop, Nat.succ_mul, Nat.add_comm]
      have hmapeq : ((List.range (numChunks (n - cs) cs)).map
            ((fun i => ((b :: bs).drop (i * cs)).take cs) ∘ Nat.succ))
          = (List.range (numChunks (n - cs) cs)).map
            (fun i => ((((b :: bs).drop cs)).drop (i * cs)).take cs) := by
        apply List.map_congr_left
        intro i _
        exact hdrop i
      rw [hmapeq, ih (n - cs) (by omega) ((b :: bs).drop cs)
        (by rw [List.length_drop, hn])]
      simp

theorem length_createChunks (bytes : Bytes) (cs : Nat) :
    (createChunks bytes cs).length = numChunks bytes.length cs := by
  simp [createChunks]

theorem createChunks_join (bytes : Bytes) (cs : Nat) (hc : 1 ≤ cs) :
    ((createChunks bytes cs).map (fun c => c.data)).flatten = bytes := by
  unfold createChunks
  rw [List.map_map]
  have : ((fun c : VideoChunk => c.data) ∘
      fun i => chunkAt bytes cs i (numChunks bytes.length cs))
      = fun i => (bytes.drop (i * cs)).take cs := by
    funext i
    simp [chunkAt]
  rw [this]
  exact join_chunkData cs hc bytes

theorem createChunks_get (bytes : Bytes) (cs : Nat) (i : Nat)
    (h : i < (createChunks bytes cs).length) :
    (createChunks bytes cs).get ⟨i, h⟩
      = chunkAt bytes cs i (numChunks bytes.length cs) := by
  simp [createChunks]

theorem createChunks_index (bytes : Bytes) (cs : Nat) (i : Nat)
    (h : i < (createChunks bytes cs).length) :
    ((createChunks bytes cs).get ⟨i, h⟩).index = i := by
  rw [createChunks_get]
  simp [chunkAt]

theorem createChunks_isLast_iff (bytes : Bytes) (cs : Nat) (c : VideoChunk)
    (hm : c ∈ createChunks bytes cs) :
    (c.isLast = true ↔ c.index = numChunks bytes.length cs - 1) := by
  unfold createChunks at hm
  rcases List.mem_map.mp hm with ⟨i, _, rfl⟩
  simp [chunkAt]

theorem createChunks_countP_isLast (bytes : Bytes) (cs : Nat)
    (hne : bytes ≠ []) (hc : 1 ≤ cs) :
    (createChunks bytes cs).countP (fun c => c.isLast) = 1 := by
  unfold createChunks
  rw [List.countP_map]
  have hpred : ((fun c : VideoChunk => c.isLast) ∘
      fun i => chunkAt bytes cs i (numChunks bytes.length cs))
      = fun i => i == numChunks bytes.length cs - 1 := by
    funext i
    simp [chunkAt]
  rw [hpred]
  have hlen : 1 ≤ bytes.length := by
    cases bytes with
    | nil => exact absurd rfl hne
    | cons a l => simp
  have hpos : 1 ≤ numChunks bytes.length cs := by
    rw [numChunks_pos_eq bytes.length cs hlen hc]
    exact Nat.succ_le_succ (Nat.zero_le _)
  have : (List.range (numChunks bytes.length cs)).countP
      (fun i => i == numChunks bytes.length cs - 1)
      = (List.range (numChunks bytes.length cs)).count
        (numChunks bytes.length cs - 1) := by
    rfl
  rw [this]
  exact List.count_eq_one_of_mem (List.nodup_range _)
    (List.mem_range.mpr (by omega))

end Syncy

namespace Syncy

/- ### Generic map lemmas -/

theorem mem_mapSet [BEq K] (m : List (K × V)) (k : K) (v : V) (p : K × V)
    (hp : p ∈ mapSet m k v) : p = (k, v) ∨ p ∈ m := by
  unfold mapSet at hp
  by_cases h : m.any (fun q => q.1 == k)
  · rw [if_pos h] at hp
    rcases List.mem_map.mp hp with ⟨q, hq, hfq⟩
    by_cases hqk : q.1 == k
    · rw [if_pos hqk] at hfq
      exact Or.inl hfq.symm
    · rw [if_neg hqk] at hfq
      exact Or.inr (hfq ▸ hq)
  · rw [if_neg h] at hp
    rcases List.mem_append.mp hp with h1 | h1
    · exact Or.inr h1
    · exact Or.inl (by simpa using h1)

theorem mapGet_mapSet_self [BEq K] [LawfulBEq K] (m : List (K × V)) (k : K) (v : V) :
    mapGet (mapSet m k v) k = some v := by
  induction m with
  | nil => simp [mapGet, mapSet]
  | cons p m ih =>
    by_cases hp : p.1 == k
    · have hany : (p :: m).any (fun q => q.1 == k) = true := by simp [hp]
      unfold mapSet
      rw [if_pos hany]
      simp only [List.map_cons]
      rw [if_pos hp]
      simp [mapGet]
    · by_cases hm : m.any (fun q => q.1 == k)
      · have hany : (p :: m).any (fun q => q.1 == k) = true := by simp [hm]
        unfold mapSet
        rw [if_pos hany]
        simp only [List.map_cons]
        rw [if_neg hp]
        unfold mapSet at ih
        rw [if_pos hm] at ih
        unfold mapGet at ih ⊢
        rw [List.find?_cons_of_neg _ (by simpa using hp)]
        exact ih
      · have hany : ¬((p :: m).any (fun q => q.1 == k) = true) := by
          simp only [List.any_cons, Bool.or_eq_true]
          rintro (h1 | h2)
          · exact hp h1
          · exact hm h2
        unfold mapSet
        rw [if_neg hany]
        unfold mapSet at ih
        rw [if_neg hm] at ih
        unfold mapGet at ih ⊢
        rw [List.cons_append, List.find?_cons_of_neg _ (by simpa using hp)]
        exact ih

theorem mapGet_some_mem [BEq K] (m : List (K × V)) (k : K) (v : V)
    (h : mapGet m k = some v) : ∃ k', (k', v) ∈ m := by
  unfold mapGet at h
  rcases Option.map_eq_some'.mp h with ⟨p, hfind, hsnd⟩
  refine ⟨p.1, ?_⟩
  have hmem := List.mem_of_find?_eq_some hfind
  rwa [← hsnd]

theorem mapGet_isSome_any [BEq K] (m : List (K × V)) (k : K)
    (h : (mapGet m k).isSome = true) : m.any (fun p => p.1 == k) = true := by
  unfold mapGet at h
  rw [Option.isSome_map'] at h
  rcases Option.isSome_iff_exists.mp h with ⟨p, hp⟩
  have hmem : p ∈ m := List.mem_of_find?_eq_some hp
  have hpred : (p.1 == k) = true := by
    have h2 := List.find?_some hp
    simpa using h2
  exact List.any_eq_true.mpr ⟨p, hmem, hpred⟩

theorem mapSet_keys_of_mem [BEq K] [LawfulBEq K] (m : List (K × V)) (k : K) (v : V)
    (h : m.any (fun p => p.1 == k) = true) :
    (mapSet m k v).map Prod.fst = m.map Prod.fst := by
  unfold mapSet
  rw [if_pos h, List.map_map]
  apply List.map_congr_left
  intro p _
  by_cases hk : p.1 == k
  · simp only [Function.comp, if_pos hk]
    exact (eq_of_beq hk).symm
  · simp [Function.comp, if_neg hk]

/- ### Consumer lemmas -/

theorem handleReceivedChunk_valid_eq (st : P2PState) (c : VideoChunk) (pid : String)
    (hv : c.checksum = sha256Model c.data) :
    handleReceivedChunk st c pid =
      ({ chunkBuffer :=
          { chunks := mapSet st.chunkBuffer.chunks c.index c
            maxSize := st.chunkBuffer.maxSize
            currentSize := st.chunkBuffer.currentSize + 1
            missingChunks := st.chunkBuffer.missingChunks.erase c.index }
         streamingState :=
          { totalChunks := st.streamingState.totalChunks
            receivedChunks := st.streamingState.receivedChunks + 1
            bufferedChunks := (mapSet st.chunkBuffer.chunks c.index c).length } },
        [.chunkReceived c.index (st.streamingState.receivedChunks + 1)
            st.streamingState.totalChunks] ++
          (if st.streamingState.totalChunks ≤ st.streamingState.receivedChunks + 1 then
            [.streamComplete st.streamingState.totalChunks] else [])) := by
  unfold handleReceivedChunk
  rw [if_neg (fun hne => hne hv.symm)]

theorem handleReceivedChunk_mismatch_eq (st : P2PState) (c : VideoChunk) (pid : String)
    (hv : ¬ c.checksum = sha256Model c.data) :
    handleReceivedChunk st c pid = (st, [.requestChunkLog c.index pid]) := by
  unfold handleReceivedChunk
  rw [if_pos (fun he => hv he.symm)]

theorem runDeliveries_fst_cons (st : P2PState) (d : VideoChunk × String)
    (ds : List (VideoChunk × String)) :
    (runDeliveries st (d :: ds)).1 = (runDeliveries (handleReceivedChunk st d.1 d.2).1 ds).1 :=
  rfl

theorem runDeliveries_snd_cons (st : P2PState) (d : VideoChunk × String)
    (ds : List (VideoChunk × String)) :
    (runDeliveries st (d :: ds)).2
      = (handleReceivedChunk st d.1 d.2).2 ++ (runDeliveries (handleReceivedChunk st d.1 d.2).1 ds).2 :=
  rfl

theorem runDeliveries_valid_counters (ds : List (VideoChunk × String)) :
    ∀ st : P2PState, (∀ d ∈ ds, validDelivery d) →
      (runDeliveries st ds).1.streamingState.receivedChunks
          = st.streamingState.receivedChunks + ds.length
      ∧ (runDeliveries st ds).1.streamingState.totalChunks
          = st.streamingState.totalChunks := by
  induction ds with
  | nil =>
    intro st _
    exact ⟨rfl, rfl⟩
  | cons d ds ih =>
    intro st hv
    have hd : validDelivery d := hv d (List.mem_cons_self d ds)
    have hrest := ih (handleReceivedChunk st d.1 d.2).1
      (fun x hx => hv x (List.mem_cons_of_mem d hx))
    rw [runDeliveries_fst_cons]
    constructor
    · rw [hrest.1, handleReceivedChunk_valid_eq st d.1 d.2 hd]
      simp only [List.length_cons]
      omega
    · rw [hrest.2, handleReceivedChunk_valid_eq st d.1 d.2 hd]

theorem streamComplete_count (t : Nat) (ds : List (VideoChunk × String)) :
    ∀ st : P2PState, (∀ d ∈ ds, validDelivery d) →
      st.streamingState.totalChunks = t →
      st.streamingState.receivedChunks < t →
      st.streamingState.receivedChunks + ds.length ≤ t →
      (runDeliveries st ds).2.countP isStreamCompleteAct
        = if st.streamingState.receivedChunks + ds.length = t then 1 else 0 := by
  induction ds with
  | nil =>
    intro st _ _ hlt _
    simp only [List.length_nil]
    rw [if_neg (by omega)]
    rfl
  | cons d ds ih =>
    intro st hv htot hlt hle
    have hd : validDelivery d := hv d (List.mem_cons_self d ds)
    rw [runDeliveries_snd_cons, List.countP_append,
      handleReceivedChunk_valid_eq st d.1 d.2 hd]
    simp only [List.length_cons] at hle ⊢
    by_cases hc : st.streamingState.receivedChunks + 1 = t
    · have hds : ds = [] := List.eq_nil_of_length_eq_zero (by omega)
      subst hds
      simp only [List.length_nil]
      rw [htot, if_pos (show t ≤ st.streamingState.receivedChunks + 1 by omega),
        if_pos (show st.streamingState.receivedChunks + (0 + 1) = t by omega)]
      simp [isStreamCompleteAct, runDeliveries]
    · have hcount := ih (handleReceivedChunk st d.1 d.2).1
        (fun x hx => hv x (List.mem_cons_of_mem d hx))
        (by rw [handleReceivedChunk_valid_eq st d.1 d.2 hd]; exact htot)
        (by rw [handleReceivedChunk_valid_eq st d.1 d.2 hd]
            show st.streamingState.receivedChunks + 1 < t
            omega)
        (by rw [handleReceivedChunk_valid_eq st d.1 d.2 hd]
            show st.streamingState.receivedChunks + 1 + ds.length ≤ t
            omega)
      rw [handleReceivedChunk_valid_eq st d.1 d.2 hd] at hcount
      dsimp only at hcount ⊢
      rw [hcount]
      rw [htot, if_neg (show ¬ t ≤ st.streamingState.receivedChunks + 1 by omega)]
      by_cases hfin : st.streamingState.receivedChunks + 1 + ds.length = t
      · rw [if_pos hfin,
          if_pos (show st.streamingState.receivedChunks + (ds.length + 1) = t by omega)]
        simp [isStreamCompleteAct]
      · rw [if_neg hfin,
          if_neg (show ¬ st.streamingState.receivedChunks + (ds.length + 1) = t by omega)]
        simp [isStreamCompleteAct]

end Syncy

namespace Syncy

theorem chunkAt_size (bytes : Bytes) (cs i total : Nat) :
    (chunkAt bytes cs i total).size = min cs (bytes.length - i * cs) := by
  simp [chunkAt, List.length_take, List.length_drop]

theorem chunkAt_isLast (bytes : Bytes) (cs i total : Nat) :
    (chunkAt bytes cs i total).isLast = (i == total - 1) := rfl

theorem createChunks_getElem_opt (bytes : Bytes) (cs i : Nat)
    (h : i < numChunks bytes.length cs) :
    (createChunks bytes cs)[i]? = some (chunkAt bytes cs i (numChunks bytes.length cs)) := by
  have hlen : i < (createChunks bytes cs).length := by
    rw [length_createChunks]
    exact h
  rw [List.getElem?_eq_getElem hlen]
  congr 1
  simp [createChunks]

/-- C5 counterexample: on the empty source `createChunks` yields zero
chunks, so no chunk at all carries the last flag — the claim's "exactly
one chunk (the final one) has the last flag set" fails for the empty byte
sequence (e.g. at chunk size 1), where `ceil(0/1) = 0` chunks exist. -/
theorem createChunks_empty_no_last :
    createChunks [] 1 = []
    ∧ ¬ ((createChunks [] 1).countP (fun c => c.isLast) = 1) := by
  constructor
  · rfl
  · decide

/-- C5 (amended): for every source byte sequence and chunk size ≥ 1,
slicing yields exactly `ceil(len/chunkSize)` chunks with contiguous
0-based indices, concatenating all payloads in index order reproduces the
source exactly, and — provided the source is nonempty — exactly one chunk
has the last flag set, namely the one with the final index. -/
theorem createChunks_partition_spec (bytes : Bytes) (cs : Nat) (hc : 1 ≤ cs) :
    (createChunks bytes cs).length = numChunks bytes.length cs
    ∧ (∀ i (h : i < (createChunks bytes cs).length),
        ((createChunks bytes cs).get ⟨i, h⟩).index = i)
    ∧ ((createChunks bytes cs).map (fun c => c.data)).flatten = bytes
    ∧ (bytes ≠ [] →
        (createChunks bytes cs).countP (fun c => c.isLast) = 1
        ∧ ∀ c ∈ createChunks bytes cs,
            (c.isLast = true ↔ c.index = numChunks bytes.length cs - 1)) := by
  refine ⟨length_createChunks bytes cs, ?_, createChunks_join bytes cs hc, ?_⟩
  · intro i h
    exact createChunks_index bytes cs i h
  · intro hne
    exact ⟨createChunks_countP_isLast bytes cs hne hc,
      fun c hm => createChunks_isLast_iff bytes cs c hm⟩

/-- Witness for `createChunks_partition_spec` at the 5-byte source
`[1,2,3,4,5]` and chunk size 2 (3 chunks: `[1,2]`, `[3,4]`, `[5]`). -/
theorem createChunks_partition_spec_witness :
    1 ≤ 2
    ∧ ((createChunks [1, 2, 3, 4, 5] 2).length = numChunks (List.length [1, 2, 3, 4, 5]) 2
      ∧ (∀ i (h : i < (createChunks [1, 2, 3, 4, 5] 2).length),
          ((createChunks [1, 2, 3, 4, 5] 2).get ⟨i, h⟩).index = i)
      ∧ ((createChunks [1, 2, 3, 4, 5] 2).map (fun c => c.data)).flatten = [1, 2, 3, 4, 5]
      ∧ (([1, 2, 3, 4, 5] : Bytes) ≠ [] →
          (createChunks [1, 2, 3, 4, 5] 2).countP (fun c => c.isLast) = 1
          ∧ ∀ c ∈ createChunks [1, 2, 3, 4, 5] 2,
              (c.isLast = true ↔ c.index = numChunks (List.length [1, 2, 3, 4, 5]) 2 - 1))) :=
  ⟨by decide, createChunks_partition_spec [1, 2, 3, 4, 5] 2 (by decide)⟩

/-- C8 counterexample: slicing the 10 000 000-byte source at 65 536-byte
chunks does yield 153 chunks, but the final chunk (index 152) holds
10 000 000 − 152·65 536 = 38 528 bytes, not the 8 192 bytes the claim
states. -/
theorem tenMB_final_chunk_size_not_8192 :
    (createChunks tenMBSource 65536).length = 153
    ∧ ((createChunks tenMBSource 65536)[152]?).map (fun c => c.size) = some 38528
    ∧ ¬ (38528 = 8192) := by
  have hlen10 : tenMBSource.length = 10000000 := List.length_replicate 10000000 0
  have hn : numChunks tenMBSource.length 65536 = 153 := by
    rw [hlen10]
    norm_num [numChunks]
  refine ⟨?_, ?_, by decide⟩
  · rw [length_createChunks, hn]
  · rw [createChunks_getElem_opt tenMBSource 65536 152 (by rw [hn]; decide)]
    show some (chunkAt tenMBSource 65536 152 (numChunks tenMBSource.length 65536)).size
      = some 38528
    rw [chunkAt_size, hlen10]
    decide

/-- C8 (amended): slicing the 10 000 000-byte source at 65 536-byte chunks
yields exactly 153 chunks whose final chunk is 38 528 bytes long (not
8 192) and is the only chunk flagged last; and a consumer that receives
each of the 153 chunk indices exactly once (any order) emits exactly one
`stream-complete` notification. -/
theorem tenMB_chunks_and_single_complete (ds : List (VideoChunk × String))
    (hv : ∀ d ∈ ds, validDelivery d)
    (hperm : (ds.map (fun d => d.1.index)).Perm (List.range 153)) :
    (createChunks tenMBSource 65536).length = 153
    ∧ ((createChunks tenMBSource 65536)[152]?).map (fun c => c.size) = some 38528
    ∧ ((createChunks tenMBSource 65536)[152]?).map (fun c => c.isLast) = some true
    ∧ (createChunks tenMBSource 65536).countP (fun c => c.isLast) = 1
    ∧ (runDeliveries (initConsumer 153) ds).2.countP isStreamCompleteAct = 1 := by
  have hlen10 : tenMBSource.length = 10000000 := List.length_replicate 10000000 0
  have hn : numChunks tenMBSource.length 65536 = 153 := by
    rw [hlen10]
    norm_num [numChunks]
  have hlen : ds.length = 153 := by
    have h1 := hperm.length_eq
    rwa [List.length_map, List.length_range] at h1
  refine ⟨?_, ?_, ?_, ?_, ?_⟩
  · rw [length_createChunks, hn]
  · rw [createChunks_getElem_opt tenMBSource 65536 152 (by rw [hn]; decide)]
    show some (chunkAt tenMBSource 65536 152 (numChunks tenMBSource.length 65536)).size
      = some 38528
    rw [chunkAt_size, hlen10]
    decide
  · rw [createChunks_getElem_opt tenMBSource 65536 152 (by rw [hn]; decide)]
    show some (chunkAt tenMBSource 65536 152 (numChunks tenMBSource.length 65536)).isLast
      = some true
    rw [chunkAt_isLast, hn]
    decide
  · refine createChunks_countP_isLast tenMBSource 65536 ?_ (by decide)
    intro h
    have h0 := congrArg List.length h
    rw [hlen10] at h0
    exact absurd h0 (by decide)
  · have hcnt := streamComplete_count 153 ds (initConsumer 153) hv rfl
      (show (0 : Nat) < 153 by decide)
      (show (0 : Nat) + ds.length ≤ 153 by omega)
    rw [show (initConsumer 153).streamingState.receivedChunks = 0 from rfl] at hcnt
    rw [if_pos (by omega)] at hcnt
    exact hcnt

set_option maxRecDepth 8000 in
/-- Witness for `tenMB_chunks_and_single_complete` at the concrete
in-order trace `tenMBDeliveries`. -/
theorem tenMB_chunks_and_single_complete_witness :
    (∀ d ∈ tenMBDeliveries, validDelivery d)
    ∧ (tenMBDeliveries.map (fun d => d.1.index)).Perm (List.range 153)
    ∧ ((createChunks tenMBSource 65536).length = 153
      ∧ ((createChunks tenMBSource 65536)[152]?).map (fun c => c.size) = some 38528
      ∧ ((createChunks tenMBSource 65536)[152]?).map (fun c => c.isLast) = some true
      ∧ (createChunks tenMBSource 65536).countP (fun c => c.isLast) = 1
      ∧ (runDeliveries (initConsumer 153) tenMBDeliveries).2.countP isStreamCompleteAct = 1) :=
  ⟨by decide,
    (show tenMBDeliveries.map (fun d => d.1.index) = List.range 153 by rfl) ▸
      List.Perm.refl _,
    tenMB_chunks_and_single_complete tenMBDeliveries (by decide)
      ((show tenMBDeliveries.map (fun d => d.1.index) = List.range 153 by rfl) ▸
        List.Perm.refl _)⟩

end Syncy

namespace Syncy

/-- C6 counterexample: with an expected total of 2 chunks, delivering the
valid chunk of index 0 leaves received count 1 and index 0 verified and
buffered; delivering the *same* index again raises the received count to
2 — the duplicate is counted a second time, contradicting "changes
neither the received count nor the buffer (duplicates are never counted
twice)" — and even triggers a `stream-complete` emission although index 1
never arrived. -/
theorem duplicate_chunk_counted_twice :
    (runDeliveries (initConsumer 2) [(dupChunk, "p")]).1.streamingState.receivedChunks = 1
    ∧ (mapGet (runDeliveries (initConsumer 2) [(dupChunk, "p")]).1.chunkBuffer.chunks
        dupChunk.index).isSome = true
    ∧ ¬ ((runDeliveries (initConsumer 2)
          [(dupChunk, "p"), (dupChunk, "p")]).1.streamingState.receivedChunks = 1)
    ∧ (runDeliveries (initConsumer 2)
        [(dupChunk, "p"), (dupChunk, "p")]).1.streamingState.receivedChunks = 2
    ∧ (runDeliveries (initConsumer 2)
        [(dupChunk, "p"), (dupChunk, "p")]).2.countP isStreamCompleteAct = 1 := by
  decide

/-- C6 (amended): a consumer expecting `n` chunks that receives a valid
delivery of every index in `[0, n)` — in any order, duplicates allowed —
reaches the code's Complete state; however, re-receiving an
already-verified index leaves the buffered chunk map's key set unchanged
while still incrementing the received count: duplicates ARE counted
again. -/
theorem consumer_completes_but_duplicates_counted (n : Nat)
    (ds : List (VideoChunk × String))
    (hv : ∀ d ∈ ds, validDelivery d)
    (hcov : ∀ i < n, ∃ d ∈ ds, d.1.index = i) :
    isComplete (runDeliveries (initConsumer n) ds).1 = true
    ∧ (∀ (st : P2PState) (c : VideoChunk) (pid : String),
        c.checksum = sha256Model c.data →
        (mapGet st.chunkBuffer.chunks c.index).isSome = true →
        ((handleReceivedChunk st c pid).1.chunkBuffer.chunks.map Prod.fst
            = st.chunkBuffer.chunks.map Prod.fst
          ∧ (handleReceivedChunk st c pid).1.streamingState.receivedChunks
            = st.streamingState.receivedChunks + 1)) := by
  constructor
  · have hcnt := runDeliveries_valid_counters ds (initConsumer n) hv
    have hlen : n ≤ ds.length := by
      have hsub : Finset.range n ⊆ (ds.map (fun d => d.1.index)).toFinset := by
        intro i hi
        rcases hcov i (Finset.mem_range.mp hi) with ⟨d, hd, hidx⟩
        exact List.mem_toFinset.mpr (List.mem_map.mpr ⟨d, hd, hidx⟩)
      calc n = (Finset.range n).card := (Finset.card_range n).symm
        _ ≤ (ds.map (fun d => d.1.index)).toFinset.card := Finset.card_le_card hsub
        _ ≤ (ds.map (fun d => d.1.index)).length := List.toFinset_card_le _
        _ = ds.length := List.length_map _ _
    unfold isComplete
    rw [hcnt.1, hcnt.2]
    exact decide_eq_true (show n ≤ 0 + ds.length by omega)
  · intro st c pid hvc hsome
    have hany := mapGet_isSome_any st.chunkBuffer.chunks c.index hsome
    rw [handleReceivedChunk_valid_eq st c pid hvc]
    exact ⟨mapSet_keys_of_mem _ _ _ hany, rfl⟩

/-- Witness for `consumer_completes_but_duplicates_counted` at `n = 2`
and the reverse-order-with-duplicate trace `reverseDupDeliveries`. -/
theorem consumer_completes_but_duplicates_counted_witness :
    (∀ d ∈ reverseDupDeliveries, validDelivery d)
    ∧ (∀ i < 2, ∃ d ∈ reverseDupDeliveries, d.1.index = i)
    ∧ (isComplete (runDeliveries (initConsumer 2) reverseDupDeliveries).1 = true
      ∧ (∀ (st : P2PState) (c : VideoChunk) (pid : String),
          c.checksum = sha256Model c.data →
          (mapGet st.chunkBuffer.chunks c.index).isSome = true →
          ((handleReceivedChunk st c pid).1.chunkBuffer.chunks.map Prod.fst
              = st.chunkBuffer.chunks.map Prod.fst
            ∧ (handleReceivedChunk st c pid).1.streamingState.receivedChunks
              = st.streamingState.receivedChunks + 1))) :=
  ⟨by decide, by decide,
    consumer_completes_but_duplicates_counted 2 reverseDupDeliveries
      (by decide) (by decide)⟩

/-- C7: a chunk whose declared checksum does not match its payload digest
is never counted — the consumer state is exactly unchanged — and
`requestChunk` is invoked with the same index and the sending peer; but
`requestChunk` is an unimplemented stub that only logs (it sends
nothing), no retry count is kept anywhere, and no error of any kind is
ever surfaced: after 4 = `config.retryAttempts + 1` consecutive
deliveries of the same corrupted chunk the emitted actions are exactly
four `requestChunk` log calls — no transfer error, no abort. -/
theorem corrupt_chunk_stub_rerequest_no_retry_budget :
    corruptChunk.checksum ≠ sha256Model corruptChunk.data
    ∧ (runDeliveries (initConsumer 2) (List.replicate 4 (corruptChunk, "peer"))).1
        = initConsumer 2
    ∧ (runDeliveries (initConsumer 2) (List.replicate 4 (corruptChunk, "peer"))).2
        = List.replicate 4 (.requestChunkLog 0 "peer")
    ∧ config.retryAttempts = 3 := by
  decide

end Syncy

namespace Syncy

/-- C1: in the host-only variant, a `video-event` from a recognized
member that is not the current host is rejected with the
`Only host can control video` error sent only to the submitter, the
state is untouched and nothing is broadcast; an accepted event (member is
host) produces exactly one room broadcast, stamped with the sender's
member id and the server timestamp, whose socket.io delivery excludes the
sender (no echo) and reaches every other member socket that has joined
the room; and in the main-server variant every accepted member event is
likewise a single sender-excluding broadcast. -/
theorem videoEvent_host_only_no_echo (st : ServerState) (sid : Nat)
    (d : VideoEventData) (room : Room) (uid : Nat) (user : User)
    (hroom : mapGet st.rooms d.roomId = some room)
    (huid : mapGet st.userSockets sid = some uid)
    (hfind : room.users.find? (fun u => u.id == uid) = some user) :
    (user.isHost = false →
      videoEventHandlerVercel st sid d
        = (st, [.emitTo sid (.errorMsg "Only host can control video")]))
    ∧ (user.isHost = true →
      (videoEventHandlerVercel st sid d).2
        = [.broadcast sid (.str d.roomId)
            (.videoEventReceived d.type d.time d.volume d.speed uid st.now)])
    ∧ isRecipient st sid (.str d.roomId) sid = false
    ∧ (∀ v ∈ room.users, v.socketId ≠ sid →
        inSioRoom st v.socketId (.str d.roomId) = true →
        isRecipient st sid (.str d.roomId) v.socketId = true)
    ∧ (videoEventHandler st sid d).2
        = [.broadcast sid (.str d.roomId)
            (.videoEventReceived d.type d.time d.volume d.speed uid st.now)] := by
  have hany : room.users.any (fun u => u.id == uid) = true := by
    have hmem := List.mem_of_find?_eq_some hfind
    have hpred : (user.id == uid) = true := by
      have h2 := List.find?_some hfind
      simpa using h2
    exact List.any_eq_true.mpr ⟨user, hmem, hpred⟩
  refine ⟨?_, ?_, ?_, ?_, ?_⟩
  · intro hh
    unfold videoEventHandlerVercel
    rw [huid]
    dsimp only
    rw [hroom]
    dsimp only
    rw [hfind]
    simp [hh]
  · intro hh
    unfold videoEventHandlerVercel
    rw [huid]
    dsimp only
    rw [hroom]
    dsimp only
    rw [hfind]
    simp [hh]
  · simp [isRecipient]
  · intro v _ hne hin
    simp only [isRecipient, hin, Bool.and_true]
    simp [hne]
  · unfold videoEventHandler
    rw [hroom]
    dsimp only
    rw [huid]
    dsimp only
    rw [if_pos hany]

/-- Witness for `videoEvent_host_only_no_echo`: the two-member room of
`stB` (Alice host on socket 1, Bob on socket 2), with Bob as the
submitting member. -/
theorem videoEvent_host_only_no_echo_witness :
    mapGet stB.rooms "R" = some roomB
    ∧ mapGet stB.userSockets 2 = some 1
    ∧ roomB.users.find? (fun u => u.id == 1) = some bobUser
    ∧ ((bobUser.isHost = false →
        videoEventHandlerVercel stB 2 ⟨"R", "pause", none, none, none⟩
          = (stB, [.emitTo 2 (.errorMsg "Only host can control video")]))
      ∧ (bobUser.isHost = true →
        (videoEventHandlerVercel stB 2 ⟨"R", "pause", none, none, none⟩).2
          = [.broadcast 2 (.str "R")
              (.videoEventReceived "pause" none none none 1 stB.now)])
      ∧ isRecipient stB 2 (.str "R") 2 = false
      ∧ (∀ v ∈ roomB.users, v.socketId ≠ 2 →
          inSioRoom stB v.socketId (.str "R") = true →
          isRecipient stB 2 (.str "R") v.socketId = true)
      ∧ (videoEventHandler stB 2 ⟨"R", "pause", none, none, none⟩).2
          = [.broadcast 2 (.str "R")
              (.videoEventReceived "pause" none none none 1 stB.now)]) :=
  ⟨by decide, by decide, by decide,
    videoEvent_host_only_no_echo stB 2 ⟨"R", "pause", none, none, none⟩
      roomB 1 bobUser (by decide) (by decide) (by decide)⟩

end Syncy

namespace Syncy

/-- C3: a further `join-room` on a connection id already bound to a member
of the named room is handled by the reconnection branch: the stored room
keeps exactly the same member list except that the matched member's
connection id is rebound — the membership count, every member id and
every host flag are unchanged, no member is created, and the submitter is
answered with its existing member id and host flag while the others get
`user-reconnected`. -/
theorem reconnection_rebinds_without_new_member (st : ServerState) (sid : Nat)
    (roomId userName : String) (room : Room) (uid : Nat) (user : User)
    (hne : ¬ (roomId = "" ∨ userName = ""))
    (hroom : mapGet st.rooms roomId = some room)
    (huid : mapGet st.userSockets sid = some uid)
    (hfind : room.users.find? (fun u => u.id == uid) = some user) :
    mapGet (joinRoom st sid roomId userName).1.rooms roomId
      = some { room with
          users := rebindUsers room.users uid sid
          lastActivity := st.now }
    ∧ (rebindUsers room.users uid sid).length = room.users.length
    ∧ (rebindUsers room.users uid sid).map (fun u => u.id)
        = room.users.map (fun u => u.id)
    ∧ (rebindUsers room.users uid sid).map (fun u => u.isHost)
        = room.users.map (fun u => u.isHost)
    ∧ (joinRoom st sid roomId userName).2
        = [.emitTo sid (.roomJoined roomId uid user.isHost),
            .broadcast sid (.str roomId) (.userReconnected uid)] := by
  have hred : joinRoom st sid roomId userName
      = ({ st with
            rooms := mapSet st.rooms roomId
              { room with
                users := rebindUsers room.users uid sid
                lastActivity := st.now }
            userSockets := mapSet st.userSockets sid uid
            joined := sioJoin st.joined sid roomId
            now := st.now + 1 },
          [.emitTo sid (.roomJoined roomId uid user.isHost),
            .broadcast sid (.str roomId) (.userReconnected uid)]) := by
    unfold joinRoom
    rw [if_neg hne, hroom, huid]
    dsimp only
    rw [hfind]
    rfl
  refine ⟨?_, ?_, ?_, ?_, ?_⟩
  · rw [hred]
    exact mapGet_mapSet_self st.rooms roomId _
  · simp [rebindUsers]
  · unfold rebindUsers
    rw [List.map_map]
    apply List.map_congr_left
    intro u _
    by_cases h : u.id = uid
    · simp [Function.comp, h]
    · simp [Function.comp, h]
  · unfold rebindUsers
    rw [List.map_map]
    apply List.map_congr_left
    intro u _
    by_cases h : u.id = uid
    · simp [Function.comp, h]
    · simp [Function.comp, h]
  · rw [hred]

/-- Witness for `reconnection_rebinds_without_new_member`: Bob's socket 2
re-submitting `join-room` for `R` in the two-member state `stB`. -/
theorem reconnection_rebinds_without_new_member_witness :
    ¬ (("R" : String) = "" ∨ ("Bob" : String) = "")
    ∧ mapGet stB.rooms "R" = some roomB
    ∧ mapGet stB.userSockets 2 = some 1
    ∧ roomB.users.find? (fun u => u.id == 1) = some bobUser
    ∧ (mapGet (joinRoom stB 2 "R" "Bob").1.rooms "R"
        = some { roomB with
            users := rebindUsers roomB.users 1 2
            lastActivity := stB.now }
      ∧ (rebindUsers roomB.users 1 2).length = roomB.users.length
      ∧ (rebindUsers roomB.users 1 2).map (fun u => u.id)
          = roomB.users.map (fun u => u.id)
      ∧ (rebindUsers roomB.users 1 2).map (fun u => u.isHost)
          = roomB.users.map (fun u => u.isHost)
      ∧ (joinRoom stB 2 "R" "Bob").2
          = [.emitTo 2 (.roomJoined "R" 1 bobUser.isHost),
              .broadcast 2 (.str "R") (.userReconnected 1)]) :=
  ⟨by decide, by decide, by decide, by decide,
    reconnection_rebinds_without_new_member stB 2 "R" "Bob" roomB 1 bobUser
      (by decide) (by decide) (by decide) (by decide)⟩

/-- C9: a `join-room` for a room already holding 10 members, arriving on a
connection not bound to any member of that room, leaves the entire server
state unchanged (in particular no member is created and the room's
membership is untouched) and produces exactly one `Room is full` error
sent to the requesting socket alone. -/
theorem join_full_room_rejected (st : ServerState) (sid : Nat)
    (roomId userName : String) (room : Room)
    (hne : ¬ (roomId = "" ∨ userName = ""))
    (hroom : mapGet st.rooms roomId = some room)
    (hfull : 10 ≤ room.users.length)
    (hnomem : ∀ uid, mapGet st.userSockets sid = some uid →
        room.users.find? (fun u => u.id == uid) = none) :
    joinRoom st sid roomId userName
      = (st, [.emitTo sid (.errorMsg "Room is full")]) := by
  unfold joinRoom
  rw [if_neg hne, hroom]
  cases hus : mapGet st.userSockets sid with
  | none =>
    dsimp only
    unfold joinExisting
    rw [if_pos hfull]
  | some uid =>
    dsimp only
    rw [hnomem uid hus]
    dsimp only
    unfold joinExisting
    rw [if_pos hfull]

/-- Witness for `join_full_room_rejected`: socket 11 trying to join the
ten-member room `F` of `st10`. -/
theorem join_full_room_rejected_witness :
    ¬ (("F" : String) = "" ∨ ("Kate" : String) = "")
    ∧ mapGet st10.rooms "F" = some roomF
    ∧ 10 ≤ roomF.users.length
    ∧ (∀ uid, mapGet st10.userSockets 11 = some uid →
        roomF.users.find? (fun u => u.id == uid) = none)
    ∧ joinRoom st10 11 "F" "Kate"
        = (st10, [.emitTo 11 (.errorMsg "Room is full")]) :=
  ⟨by decide, by decide, by decide, by decide,
    join_full_room_rejected st10 11 "F" "Kate" roomF
      (by decide) (by decide) (by decide) (by decide)⟩

/-- C10: a `join-room` arriving on a connection id with no binding in the
connection→member index always creates a brand-new member carrying the
freshly generated id — the display name is never consulted for
reconnection, so a rejoin under an existing member's display name from a
different connection still appends a second member. -/
theorem unbound_connection_creates_fresh_member (st : ServerState) (sid : Nat)
    (roomId userName : String) (room : Room)
    (hne : ¬ (roomId = "" ∨ userName = ""))
    (hroom : mapGet st.rooms roomId = some room)
    (hnosock : mapGet st.userSockets sid = none)
    (hcap : room.users.length < 10)
    (hfresh : ∀ u ∈ room.users, u.id ≠ st.nextUserId) :
    mapGet (joinRoom st sid roomId userName).1.rooms roomId
      = some { room with
          host := if room.users.isEmpty then some st.nextUserId else room.host
          users := room.users ++ [newUser st sid userName room]
          lastActivity := st.now }
    ∧ (newUser st sid userName room).id = st.nextUserId
    ∧ (∀ u ∈ room.users, u.id ≠ (newUser st sid userName room).id)
    ∧ mapGet (joinRoom st sid roomId userName).1.userSockets sid
        = some st.nextUserId
    ∧ (joinRoom st sid roomId userName).1.nextUserId = st.nextUserId + 1 := by
  have hred : joinRoom st sid roomId userName = joinExisting st sid roomId userName room := by
    unfold joinRoom
    rw [if_neg hne, hroom, hnosock]
  have hred2 : joinExisting st sid roomId userName room
      = ({ st with
            rooms := mapSet st.rooms roomId
              { room with
                host := if room.users.isEmpty then some st.nextUserId else room.host
                users := room.users ++ [newUser st sid userName room]
                lastActivity := st.now }
            userSockets := mapSet st.userSockets sid st.nextUserId
            joined := sioJoin st.joined sid roomId
            nextUserId := st.nextUserId + 1
            now := st.now + 1 },
          [.emitTo sid (.roomJoined roomId st.nextUserId (newUser st sid userName room).isHost),
            .broadcast sid (.str roomId) (.userJoined st.nextUserId)]) := by
    unfold joinExisting
    rw [if_neg (by omega)]
  rw [hred, hred2]
  refine ⟨mapGet_mapSet_self st.rooms roomId _, rfl, ?_,
    mapGet_mapSet_self st.userSockets sid _, rfl⟩
  intro u hu
  exact hfresh u hu

/-- Witness for `unbound_connection_creates_fresh_member`: socket 5,
unknown to the index, joins `R` in state `stA` under the display name
`Alice` — the same name as the existing member — and a second member is
created regardless. -/
theorem unbound_connection_creates_fresh_member_witness :
    ¬ (("R" : String) = "" ∨ ("Alice" : String) = "")
    ∧ mapGet stA.rooms "R" = some roomA
    ∧ mapGet stA.userSockets 5 = none
    ∧ roomA.users.length < 10
    ∧ (∀ u ∈ roomA.users, u.id ≠ stA.nextUserId)
    ∧ (roomA.users.map (fun u => u.name) = ["Alice"])
    ∧ (mapGet (joinRoom stA 5 "R" "Alice").1.rooms "R"
        = some { roomA with
            host := if roomA.users.isEmpty then some stA.nextUserId else roomA.host
            users := roomA.users ++ [newUser stA 5 "Alice" roomA]
            lastActivity := stA.now }
      ∧ (newUser stA 5 "Alice" roomA).id = stA.nextUserId
      ∧ (∀ u ∈ roomA.users, u.id ≠ (newUser stA 5 "Alice" roomA).id)
      ∧ mapGet (joinRoom stA 5 "R" "Alice").1.userSockets 5 = some stA.nextUserId
      ∧ (joinRoom stA 5 "R" "Alice").1.nextUserId = stA.nextUserId + 1) :=
  ⟨by decide, by decide, by decide, by decide, by decide, by decide,
    unbound_connection_creates_fresh_member stA 5 "R" "Alice" roomA
      (by decide) (by decide) (by decide) (by decide) (by decide)⟩

/-- C4: the `join-stream-request` forwarding never reaches the host.  In
the two-member room of `stB`, Bob's request is emitted to the socket.io
room named by the host member uuid 0 — a room no socket is in, so Alice's
socket 1 is not a recipient.  After Alice disconnects in the three-member
room (state `stD`), Bob (member 1) carries the host flag but `room.host`
still holds the departed Alice's uuid 0, and Carol's request is again
emitted to that uuid room, which the flagged host Bob (socket 2) does not
receive — contradicting "forwarded exactly to the room's current host,
including after a host promotion". -/
theorem joinStreamRequest_reaches_no_host :
    (joinStreamRequestHandler stB 2 "R").2
      = [.broadcast 2 (.user 0) (.joinStreamRequestFwd "R" 2 "Bob" stB.now)]
    ∧ inSioRoom stB 1 (.user 0) = false
    ∧ isRecipient stB 2 (.user 0) 1 = false
    ∧ (mapGet stD.rooms "R").map (fun r => r.users.map (fun u => (u.id, u.isHost)))
        = some [(1, true), (2, false)]
    ∧ (mapGet stD.rooms "R").map (fun r => r.host) = some (some 0)
    ∧ (joinStreamRequestHandler stD 3 "R").2
      = [.broadcast 3 (.user 0) (.joinStreamRequestFwd "R" 3 "Carol" stD.now)]
    ∧ isRecipient stD 3 (.user 0) 2 = false
    ∧ isRecipient stD 3 (.user 0) 1 = false
    ∧ isRecipient stD 3 (.user 0) 3 = false := by
  decide

end Syncy

namespace Syncy

/- ### Invariant machinery for the host-uniqueness claim -/

theorem roomOk_mono (n1 n2 t1 t2 : Nat) (hn : n1 ≤ n2) (ht : t1 ≤ t2)
    (room : Room) (h : roomOk n1 t1 room) : roomOk n2 t2 room := by
  obtain ⟨hh, hp, hnow, hid⟩ := h
  exact ⟨hh, hp, fun u hu => lt_of_lt_of_le (hnow u hu) ht,
    fun u hu => lt_of_lt_of_le (hid u hu) hn⟩

theorem roomOk_freshRoom (n t : Nat) (roomId : String) (t0 : Nat) :
    roomOk n t (freshRoom roomId t0) := by
  refine ⟨trivial, List.Pairwise.nil, ?_, ?_⟩ <;>
    · intro u hu
      simp [freshRoom] at hu

theorem roomOk_of_mapGet (st : ServerState) (hInv : serverInv st)
    (roomId : String) (room : Room) (h : mapGet st.rooms roomId = some room) :
    roomOk st.nextUserId st.now room := by
  rcases mapGet_some_mem _ _ _ h with ⟨k, hk⟩
  exact hInv (k, room) hk

theorem rebindOne_id (uid sid : Nat) (u : User) :
    (if u.id == uid then { u with socketId := sid } else u).id = u.id := by
  by_cases h : u.id == uid <;> simp [h]

theorem rebindOne_isHost (uid sid : Nat) (u : User) :
    (if u.id == uid then { u with socketId := sid } else u).isHost = u.isHost := by
  by_cases h : u.id == uid <;> simp [h]

theorem rebindOne_joinedAt (uid sid : Nat) (u : User) :
    (if u.id == uid then { u with socketId := sid } else u).joinedAt = u.joinedAt := by
  by_cases h : u.id == uid <;> simp [h]

theorem headHost_rebind (users : List User) (uid sid : Nat)
    (hh : headHost users) : headHost (rebindUsers users uid sid) := by
  cases users with
  | nil => trivial
  | cons a l =>
    obtain ⟨ha, hl⟩ := hh
    refine ⟨by rw [rebindOne_isHost]; exact ha, ?_⟩
    intro v hv
    rcases List.mem_map.mp hv with ⟨w, hw, rfl⟩
    rw [rebindOne_isHost]
    exact hl w hw

theorem roomOk_rebind (nextId now : Nat) (room : Room) (uid sid : Nat)
    (h : roomOk nextId now room) :
    roomOk nextId (now + 1)
      { room with users := rebindUsers room.users uid sid, lastActivity := now } := by
  obtain ⟨hh, hpair, hnow, hid⟩ := h
  refine ⟨headHost_rebind room.users uid sid hh, ?_, ?_, ?_⟩
  · unfold rebindUsers
    rw [List.pairwise_map]
    refine hpair.imp ?_
    intro a b hab
    rw [rebindOne_joinedAt, rebindOne_joinedAt]
    exact hab
  · intro u hu
    rcases List.mem_map.mp hu with ⟨w, hw, rfl⟩
    rw [rebindOne_joinedAt]
    exact lt_trans (hnow w hw) (Nat.lt_succ_self now)
  · intro u hu
    rcases List.mem_map.mp hu with ⟨w, hw, rfl⟩
    rw [rebindOne_id]
    exact hid w hw

theorem headHost_append (users : List User) (u : User)
    (hh : headHost users) (hu : u.isHost = users.isEmpty) :
    headHost (users ++ [u]) := by
  cases users with
  | nil =>
    refine ⟨?_, ?_⟩
    · simpa using hu
    · intro v hv
      simp at hv
  | cons a l =>
    obtain ⟨ha, hl⟩ := hh
    rw [List.cons_append]
    refine ⟨ha, ?_⟩
    intro v hv
    rcases List.mem_append.mp hv with h1 | h1
    · exact hl v h1
    · rw [List.mem_singleton.mp h1]
      simpa using hu

theorem serverInv_joinExisting (st : ServerState) (sid : Nat)
    (roomId userName : String) (room : Room)
    (hInv : serverInv st) (hok : roomOk st.nextUserId st.now room) :
    serverInv (joinExisting st sid roomId userName room).1 := by
  unfold joinExisting
  by_cases hfull : 10 ≤ room.users.length
  · rw [if_pos hfull]
    exact hInv
  · rw [if_neg hfull]
    intro p hp
    dsimp only at hp ⊢
    obtain ⟨hh, hpair, hnow, hid⟩ := hok
    rcases mem_mapSet _ _ _ _ hp with hpe | hpm
    · subst hpe
      refine ⟨?_, ?_, ?_, ?_⟩
      · exact headHost_append room.users (newUser st sid userName room) hh rfl
      · rw [List.pairwise_append]
        refine ⟨hpair, List.pairwise_singleton _ _, ?_⟩
        intro a ha b hb
        rw [List.mem_singleton.mp hb]
        exact hnow a ha
      · intro u hu
        rcases List.mem_append.mp hu with h1 | h1
        · exact lt_trans (hnow u h1) (Nat.lt_succ_self st.now)
        · rw [List.mem_singleton.mp h1]
          exact Nat.lt_succ_self st.now
      · intro u hu
        rcases List.mem_append.mp hu with h1 | h1
        · exact lt_trans (hid u h1) (Nat.lt_succ_self st.nextUserId)
        · rw [List.mem_singleton.mp h1]
          exact Nat.lt_succ_self st.nextUserId
    · exact roomOk_mono st.nextUserId (st.nextUserId + 1) st.now (st.now + 1)
        (Nat.le_succ _) (Nat.le_succ _) p.2 (hInv p hpm)

theorem serverInv_joinRoom (st : ServerState) (sid : Nat)
    (roomId userName : String) (hInv : serverInv st) :
    serverInv (joinRoom st sid roomId userName).1 := by
  unfold joinRoom
  by_cases hne : roomId = "" ∨ userName = ""
  · rw [if_pos hne]
    exact hInv
  · rw [if_neg hne]
    cases hroom : mapGet st.rooms roomId with
    | none =>
      dsimp only
      refine serverInv_joinExisting _ sid roomId userName _ ?_ ?_
      · intro p hp
        dsimp only at hp ⊢
        rcases mem_mapSet _ _ _ _ hp with hpe | hpm
        · subst hpe
          exact roomOk_freshRoom _ _ roomId st.now
        · exact hInv p hpm
      · exact roomOk_freshRoom _ _ roomId st.now
    | some room =>
      cases huid : mapGet st.userSockets sid with
      | none =>
        dsimp only
        exact serverInv_joinExisting st sid roomId userName room hInv
          (roomOk_of_mapGet st hInv roomId room hroom)
      | some uid =>
        dsimp only
        cases hfind : room.users.find? (fun u => u.id == uid) with
        | none =>
          exact serverInv_joinExisting st sid roomId userName room hInv
            (roomOk_of_mapGet st hInv roomId room hroom)
        | some user =>
          intro p hp
          dsimp only at hp ⊢
          rcases mem_mapSet _ _ _ _ hp with hpe | hpm
          · subst hpe
            exact roomOk_rebind st.nextUserId st.now room uid sid
              (roomOk_of_mapGet st hInv roomId room hroom)
          · exact roomOk_mono st.nextUserId st.nextUserId st.now (st.now + 1)
              le_rfl (Nat.le_succ _) p.2 (hInv p hpm)

end Syncy

namespace Syncy

theorem disconnectRooms_inv (uid sid now0 nextId : Nat) :
    ∀ rooms : List (String × Room), (∀ p ∈ rooms, roomOk nextId now0 p.2) →
      ∀ p ∈ (disconnectRooms uid sid now0 rooms).1, roomOk nextId now0 p.2 := by
  intro rooms
  induction rooms with
  | nil =>
    intro _ p hp
    simp [disconnectRooms] at hp
  | cons q rest ih =>
    intro hall p hp
    obtain ⟨rid, room⟩ := q
    have hq : roomOk nextId now0 room := hall (rid, room) (List.mem_cons_self _ _)
    have hrest : ∀ x ∈ rest, roomOk nextId now0 x.2 :=
      fun x hx => hall x (List.mem_cons_of_mem _ hx)
    unfold disconnectRooms at hp
    cases hfind : room.users.find? (fun u => u.id == uid) with
    | none =>
      rw [hfind] at hp
      dsimp only at hp
      rcases List.mem_cons.mp hp with h1 | h1
      · rw [h1]
        exact hq
      · exact ih hrest p h1
    | some user =>
      rw [hfind] at hp
      obtain ⟨hh, hpair, hnow, hid⟩ := hq
      cases husers : room.users with
      | nil =>
        rw [husers] at hfind
        simp at hfind
      | cons a l =>
        rw [husers] at hfind hh hpair hnow hid hp
        by_cases ha : (a.id == uid) = true
        · have ha' : (fun u : User => u.id == uid) a = true := ha
          rw [@List.find?_cons_of_pos User (fun u => u.id == uid) a l ha'] at hfind
          have hau : a = user := by
            injection hfind
          have herase : (a :: l).eraseP (fun u => u.id == uid) = l :=
            List.eraseP_cons_of_pos ha'
          have hahost : user.isHost = true := by
            rw [← hau]
            exact hh.1
          dsimp only at hp
          rw [herase, hahost] at hp
          simp only [if_true, eq_self_iff_true] at hp
          cases l with
          | nil =>
            simp only [List.isEmpty_nil, if_true] at hp
            exact hrest p hp
          | cons b t =>
            simp only [List.isEmpty_cons] at hp
            rcases List.mem_cons.mp hp with h1 | h1
            · rw [h1]
              refine ⟨?_, ?_, ?_, ?_⟩
              · refine ⟨rfl, ?_⟩
                intro v hv
                exact hh.2 v (List.mem_cons_of_mem b hv)
              · have htail : (b :: t).Pairwise (fun x y => x.joinedAt < y.joinedAt) :=
                  (List.pairwise_cons.mp hpair).2
                obtain ⟨hb, ht⟩ := List.pairwise_cons.mp htail
                exact List.pairwise_cons.mpr ⟨fun c hc => hb c hc, ht⟩
              · intro u hu
                rcases List.mem_cons.mp hu with h2 | h2
                · rw [h2]
                  exact hnow b (List.mem_cons_of_mem a (List.mem_cons_self b t))
                · exact hnow u (List.mem_cons_of_mem a (List.mem_cons_of_mem b h2))
              · intro u hu
                rcases List.mem_cons.mp hu with h2 | h2
                · rw [h2]
                  exact hid b (List.mem_cons_of_mem a (List.mem_cons_self b t))
                · exact hid u (List.mem_cons_of_mem a (List.mem_cons_of_mem b h2))
            · exact hrest p h1
        · have ha' : ¬ (fun u : User => u.id == uid) a = true := ha
          rw [@List.find?_cons_of_neg User (fun u => u.id == uid) a l ha'] at hfind
          have herase : (a :: l).eraseP (fun u => u.id == uid)
              = a :: l.eraseP (fun u => u.id == uid) :=
            List.eraseP_cons_of_neg ha'
          have huser_mem : user ∈ l := List.mem_of_find?_eq_some hfind
          have hnothost : user.isHost = false := hh.2 user huser_mem
          dsimp only at hp
          rw [herase, hnothost] at hp
          simp only [Bool.false_eq_true, if_false, List.isEmpty_cons] at hp
          rcases List.mem_cons.mp hp with h1 | h1
          · rw [h1]
            have hsub : List.Sublist (l.eraseP (fun u => u.id == uid)) l :=
              List.eraseP_sublist l
            refine ⟨?_, ?_, ?_, ?_⟩
            · refine ⟨hh.1, ?_⟩
              intro v hv
              exact hh.2 v (hsub.subset hv)
            · exact List.Pairwise.sublist (hsub.cons₂ a) hpair
            · intro u hu
              rcases List.mem_cons.mp hu with h2 | h2
              · rw [h2]
                exact hnow a (List.mem_cons_self a l)
              · exact hnow u (List.mem_cons_of_mem a (hsub.subset h2))
            · intro u hu
              rcases List.mem_cons.mp hu with h2 | h2
              · rw [h2]
                exact hid a (List.mem_cons_self a l)
              · exact hid u (List.mem_cons_of_mem a (hsub.subset h2))
          · exact hrest p h1

theorem serverInv_disconnect (st : ServerState) (sid : Nat)
    (hInv : serverInv st) : serverInv (disconnectHandler st sid).1 := by
  unfold disconnectHandler
  cases huid : mapGet st.userSockets sid with
  | none =>
    intro p hp
    dsimp only at hp ⊢
    exact hInv p hp
  | some uid =>
    intro p hp
    dsimp only at hp ⊢
    have h1 := disconnectRooms_inv uid sid st.now st.nextUserId st.rooms
      (fun q hq => hInv q hq) p hp
    exact roomOk_mono st.nextUserId st.nextUserId st.now (st.now + 1)
      le_rfl (Nat.le_succ _) p.2 h1

theorem serverInv_init : serverInv initialServerState := by
  intro p hp
  simp [initialServerState] at hp

theorem reachable_inv (st : ServerState) (h : Reachable st) : serverInv st := by
  induction h with
  | init => exact serverInv_init
  | join st0 sid roomId userName _ ih => exact serverInv_joinRoom st0 sid roomId userName ih
  | disc st0 sid _ ih => exact serverInv_disconnect st0 sid ih

end Syncy

namespace Syncy

/-- C2: in every server state reachable by any sequence of `join-room`
and disconnect operations, every stored room with at least one member
has exactly one member carrying the host flag, and that member joined
strictly earlier than every other member still present in the room. -/
theorem room_host_unique_earliest (st : ServerState) (h : Reachable st)
    (roomId : String) (room : Room)
    (hroom : mapGet st.rooms roomId = some room)
    (hne : room.users ≠ []) :
    room.users.countP (fun u => u.isHost) = 1
    ∧ ∀ u ∈ room.users, u.isHost = true →
        ∀ v ∈ room.users, v ≠ u → u.joinedAt < v.joinedAt := by
  have hok := roomOk_of_mapGet st (reachable_inv st h) roomId room hroom
  obtain ⟨hh, hpair, _, _⟩ := hok
  cases husers : room.users with
  | nil => exact absurd husers hne
  | cons a l =>
    rw [husers] at hh hpair
    obtain ⟨ha, hl⟩ := hh
    constructor
    · have hzero : l.countP (fun u => u.isHost) = 0 := by
        apply List.countP_eq_zero.mpr
        intro v hv
        simp [hl v hv]
      simp [List.countP_cons, hzero, ha]
    · intro u hu huh v hv hvu
      have hua : u = a := by
        rcases List.mem_cons.mp hu with h1 | h1
        · exact h1
        · exact absurd huh (by simp [hl u h1])
      subst hua
      have hvl : v ∈ l := by
        rcases List.mem_cons.mp hv with h1 | h1
        · exact absurd h1 hvu
        · exact h1
      exact (List.pairwise_cons.mp hpair).1 v hvl

/-- Witness for `room_host_unique_earliest`: the reachable state `stD`
(Alice, Bob and Carol joined `R`, then host Alice disconnected), whose
room holds the promoted Bob flagged host and the later-joined Carol. -/
theorem room_host_unique_earliest_witness :
    Reachable stD
    ∧ mapGet stD.rooms "R" = some roomD
    ∧ roomD.users ≠ []
    ∧ (roomD.users.countP (fun u => u.isHost) = 1
      ∧ ∀ u ∈ roomD.users, u.isHost = true →
          ∀ v ∈ roomD.users, v ≠ u → u.joinedAt < v.joinedAt) := by
  have hreach : Reachable stD :=
    Reachable.disc stC 1 (Reachable.join stB 3 "R" "Carol"
      (Reachable.join stA 2 "R" "Bob"
        (Reachable.join initialServerState 1 "R" "Alice" Reachable.init)))
  exact ⟨hreach, by decide, by decide,
    room_host_unique_earliest stD hreach "R" roomD (by decide) (by decide)⟩

end Syncy
